import Mathlib

/-!
Shallow embedding of the `upgrade` tool (a Go program that bumps the major
version of a Go module or of one of its dependencies) together with the
library routines from `golang.org/x/mod` that its logic depends on
(`module.SplitPathVersion`, `module.CheckPath`, `module.CheckImportPath`,
`semver.Major`, `strconv.Atoi`, `strings.*`).

Go strings are modelled as `List Char` (all inputs of interest are ASCII, so
one `Char` per byte/rune; `utf8.ValidString` is identically true on this
representation).  External processes (`go list` invocations) are modelled as
oracle parameters.  Verbose logging and `fmt.Printf` calls are ignored: they
do not affect results.
-/

set_option maxRecDepth 10000

/-- Decidable equality for `Except` results (used to evaluate the model on
concrete inputs). -/
instance exceptDecEq {ε α : Type} [DecidableEq ε] [DecidableEq α] :
    DecidableEq (Except ε α) := fun x y =>
  match x, y with
  | .ok a, .ok b =>
    if h : a = b then .isTrue (by rw [h]) else .isFalse (fun hc => h (Except.ok.inj hc))
  | .error a, .error b =>
    if h : a = b then .isTrue (by rw [h]) else .isFalse (fun hc => h (Except.error.inj hc))
  | .ok _, .error _ => .isFalse (fun hc => Except.noConfusion hc)
  | .error _, .ok _ => .isFalse (fun hc => Except.noConfusion hc)

/-- Go strings, modelled as lists of characters. -/
abbrev GoStr := List Char

/-- The double-quote character (written via its code point to keep source robust). -/
def quoteCh : Char := Char.ofNat 34

/-- `'0' <= c && c <= '9'`. -/
def isDigitCh (c : Char) : Bool := decide ('0' ≤ c) && decide (c ≤ '9')

/-- A digit or a dot — the characters scanned from the end of a module path by
`module.SplitPathVersion`. -/
def isDigitOrDot (c : Char) : Bool := isDigitCh c || decide (c = '.')

/-- `strings.TrimPrefix(s, pre)`: drop `pre` from the front of `s` if present. -/
def trimPrefixStr (s pre : GoStr) : GoStr :=
  if pre.isPrefixOf s then s.drop pre.length else s

/-- `strings.Contains(s, sub)`. -/
def hasSubstring (s sub : GoStr) : Bool :=
  (List.range (s.length + 1)).any (fun i => sub.isPrefixOf (s.drop i))

/-- `strings.Trim(s, "\"")`: remove all leading and trailing double quotes. -/
def trimQuotes (s : GoStr) : GoStr :=
  ((s.dropWhile (fun c => c = quoteCh)).reverse.dropWhile (fun c => c = quoteCh)).reverse

/-- `fmt.Sprintf("\"%s\"", s)`: re-quote an import path. -/
def quoteStr (s : GoStr) : GoStr := quoteCh :: (s ++ [quoteCh])

/-- `strings.Replace(s, old, new, 1)`: replace the first occurrence of `old`
(scanning left to right) by `new`; `s` is returned unchanged when `old` does
not occur. -/
def replaceOnce (old new : GoStr) : GoStr → GoStr
  | [] => if old.isPrefixOf ([] : GoStr) then new else []
  | c :: rest =>
    if old.isPrefixOf (c :: rest) then new ++ (c :: rest).drop old.length
    else c :: replaceOnce old new rest

/-- Digits to the natural number they denote (helper for `atoi`). -/
def digitsToNat (ds : GoStr) : Nat :=
  ds.foldl (fun acc c => acc * 10 + (c.toNat - '0'.toNat)) 0

/-- `strconv.Atoi`: optional sign followed by one or more decimal digits
(overflow is not modelled; module-path majors are far below 2^63). `none`
models a non-nil error. -/
def atoi (s : GoStr) : Option Int :=
  let core : GoStr → Option Nat := fun ds =>
    if ds = [] then none
    else if ds.all isDigitCh then some (digitsToNat ds) else none
  match s with
  | [] => none
  | '-' :: rest => (core rest).map (fun n => -(n : Int))
  | '+' :: rest => (core rest).map (fun n => (n : Int))
  | _ => (core s).map (fun n => (n : Int))

/-- `fmt.Sprintf("%d", i)` for the `int` values produced by `atoi`. -/
def intToGoStr (i : Int) : GoStr :=
  if i < 0 then '-' :: Nat.toDigits 10 i.natAbs else Nat.toDigits 10 i.natAbs

/-- Split a Go string at every occurrence of `sep` (the element iteration
performed by `checkPath` at each `/`, and by the semver pre-release parser at
each `.`).  Always returns at least one (possibly empty) segment. -/
def splitOnCh (sep : Char) : GoStr → List GoStr
  | [] => [[]]
  | c :: rest =>
    if c = sep then [] :: splitOnCh sep rest
    else
      match splitOnCh sep rest with
      | e :: es => (c :: e) :: es
      | [] => [[c]]

/-! ## `golang.org/x/mod/semver` -/

/-- Identifier characters of semver pre-release/build segments. -/
def isIdentChar (c : Char) : Bool :=
  (decide ('A' ≤ c) && decide (c ≤ 'Z')) || (decide ('a' ≤ c) && decide (c ≤ 'z')) ||
    isDigitCh c || decide (c = '-')

/-- semver `parseInt`: a maximal run of digits with no leading zero; returns
the digits and the rest of the string. -/
def parseIntSem (v : GoStr) : Option (GoStr × GoStr) :=
  match v with
  | [] => none
  | c :: _ =>
    if ¬ isDigitCh c then none
    else
      let t := v.takeWhile isDigitCh
      if c = '0' ∧ ¬ t.length = 1 then none
      else some (t, v.drop t.length)

/-- semver `isBadNum`: all digits, longer than one, leading zero. -/
def isBadNum (v : GoStr) : Bool :=
  v.all isDigitCh && decide (1 < v.length) && decide (v.head? = some '0')

/-- semver `parsePrerelease`: `-` followed by dot-separated, non-empty
identifier segments with no bad numbers, up to a `+` or the end; returns the
rest of the string. -/
def parsePrerelease (v : GoStr) : Option GoStr :=
  match v with
  | '-' :: body0 =>
    let body := body0.takeWhile (fun c => ¬ c = '+')
    if body.all (fun c => isIdentChar c || c = '.') ∧
        (splitOnCh '.' body).all (fun s => ¬ s = [] ∧ ¬ isBadNum s = true) then
      some (body0.drop body.length)
    else none
  | _ => none

/-- semver `parseBuild`: `+` followed by dot-separated non-empty identifier
segments, running to the end of the string. -/
def parseBuild (v : GoStr) : Option GoStr :=
  match v with
  | '+' :: body =>
    if body.all (fun c => isIdentChar c || c = '.') ∧
        (splitOnCh '.' body).all (fun s => ¬ s = []) then
      some ([] : GoStr)
    else none
  | _ => none

/-- semver `parse`, reduced to the only output the program uses: the digits of
the major component when `v` is a valid semver string, `none` otherwise. -/
def semverParse (v : GoStr) : Option GoStr :=
  match v with
  | 'v' :: r0 => do
    let (majorD, r1) ← parseIntSem r0
    if r1 = [] then pure majorD
    else
      match r1 with
      | '.' :: r2 => do
        let (_, r3) ← parseIntSem r2
        if r3 = [] then pure majorD
        else
          match r3 with
          | '.' :: r4 => do
            let (_, r5) ← parseIntSem r4
            let r6 ← (match r5.head? with
                      | some '-' => parsePrerelease r5
                      | _ => some r5)
            let r7 ← (match r6.head? with
                      | some '+' => parseBuild r6
                      | _ => some r6)
            if r7 = [] then pure majorD else none
          | _ => none
      | _ => none
  | _ => none

/-- `semver.Major`: `"vN"` for a valid version, `""` otherwise. -/
def semverMajor (v : GoStr) : GoStr :=
  match semverParse v with
  | some d => 'v' :: d
  | none => []

/-! ## `golang.org/x/mod/module` -/

/-- The literal `"gopkg.in/"`. -/
def gopkgPre : GoStr := "gopkg.in/".data

/-- The literal `"-unstable"`. -/
def unstableSuf : GoStr := "-unstable".data

/-- The literal `"/v1"`. -/
def slashV1 : GoStr := "/v1".data

/-- The literal `".v0"`. -/
def dotV0 : GoStr := ".v0".data

/-- `module.splitGopkgIn`: the gopkg.in-specific split; `none` models
`ok == false`. -/
def splitGopkgIn (p : GoStr) : Option (GoStr × GoStr) :=
  if gopkgPre.isPrefixOf p then
    let u := if unstableSuf.isSuffixOf p then unstableSuf.length else 0
    let core := p.take (p.length - u)
    let digs := core.reverse.takeWhile isDigitCh
    let rest := core.reverse.drop digs.length
    match rest.head?, rest.get? 1 with
    | some 'v', some c2 =>
      if c2 = '.' then
        let i := core.length - digs.length
        let pm := p.drop (i - 2)
        if pm.length ≤ 2 then none
        else if pm.get? 2 = some '0' ∧ ¬ pm = dotV0 then none
        else some (p.take (i - 2), pm)
      else none
    | _, _ => none
  else none

/-- `module.SplitPathVersion`: split a module path into its bare path and its
major-version suffix.  `some (pre, pm)` with `pm = []` models
`(path, "", true)` (no suffix); `pm` non-empty models `(prefix, "/vN", true)`
(note the suffix *includes* the leading slash, exactly as in Go); `none`
models `ok == false`. -/
def splitPathVersion (p : GoStr) : Option (GoStr × GoStr) :=
  if gopkgPre.isPrefixOf p then splitGopkgIn p
  else
    let digs := p.reverse.takeWhile isDigitOrDot
    let rest := p.reverse.drop digs.length
    if rest.length ≤ 1 ∨ digs = [] ∨ ¬ rest.head? = some 'v' ∨ ¬ rest.get? 1 = some '/' then
      some (p, [])
    else
      let i := p.length - digs.length
      let pm := p.drop (i - 2)
      if digs.contains '.' ∨ pm.length ≤ 2 ∨ pm.get? 2 = some '0' ∨ pm = slashV1 then none
      else some (p.take (i - 2), pm)

/-- Characters allowed anywhere in a module path (`module.modPathOK`). -/
def modPathOK (c : Char) : Bool :=
  decide (c.toNat < 128) &&
    (decide (c = '-') || decide (c = '.') || decide (c = '_') || decide (c = '~') ||
      isDigitCh c ||
      (decide ('A' ≤ c) && decide (c ≤ 'Z')) || (decide ('a' ≤ c) && decide (c ≤ 'z')))

/-- Characters allowed in an import path (`module.importPathOK`). -/
def importPathOK (c : Char) : Bool := modPathOK c || decide (c = '+')

/-- Characters allowed in the first element of a module path
(`module.firstPathOK`). -/
def firstPathOK (c : Char) : Bool :=
  decide (c = '-') || decide (c = '.') || isDigitCh c ||
    (decide ('a' ≤ c) && decide (c ≤ 'z'))

/-- The two path kinds the program validates (`module.pathKind`, restricted to
the kinds it uses). -/
inductive PathKind
  | modulePath
  | importPath
deriving DecidableEq

/-- Per-character validity for a path kind. -/
def pathOKFor : PathKind → Char → Bool
  | .modulePath => modPathOK
  | .importPath => importPathOK

/-- ASCII upper-casing, used to model `strings.EqualFold` on the ASCII-only
element strings that reach the Windows reserved-name check. -/
def toUpperCh (c : Char) : Char :=
  if decide ('a' ≤ c) && decide (c ≤ 'z') then Char.ofNat (c.toNat - 32) else c

/-- `strings.EqualFold` (ASCII case folding; all characters compared here have
already passed the ASCII-only `pathOK` check). -/
def equalFoldAscii (a b : GoStr) : Bool := decide (a.map toUpperCh = b.map toUpperCh)

/-- `module.badWindowsNames`. -/
def badWindowsNames : List GoStr :=
  ["CON", "PRN", "AUX", "NUL",
   "COM1", "COM2", "COM3", "COM4", "COM5", "COM6", "COM7", "COM8", "COM9",
   "LPT1", "LPT2", "LPT3", "LPT4", "LPT5", "LPT6", "LPT7", "LPT8", "LPT9"].map String.data

/-- `strings.LastIndex(s, c)` for a single character. -/
def lastIndexOf (c : Char) (s : GoStr) : Option Nat :=
  match s.reverse.findIdx? (fun x => x = c) with
  | none => none
  | some k => some (s.length - 1 - k)

/-- The Windows short-name rejection in `module.checkElem`: a `~` strictly
before the last position, followed only by digits, is rejected. -/
def windowsShortOK (short : GoStr) : Bool :=
  match lastIndexOf '~' short with
  | none => true
  | some t =>
    if t < short.length - 1 ∧ (short.drop (t + 1)).all isDigitCh then false else true

/-- `module.checkElem` for the module/import path kinds (`true` = no error). -/
def checkElem (kind : PathKind) (elem : GoStr) : Bool :=
  (¬ elem = [] : Bool) &&
  (¬ (elem.countP (fun c => c = '.') = elem.length) : Bool) &&
  (¬ (kind = .modulePath ∧ elem.head? = some '.') : Bool) &&
  (¬ elem.getLast? = some '.' : Bool) &&
  elem.all (pathOKFor kind) &&
  (let short := elem.takeWhile (fun c => ¬ c = '.')
   (¬ badWindowsNames.any (fun bad => equalFoldAscii bad short) : Bool) &&
   windowsShortOK short)

/-- `module.checkPath` for the module/import path kinds (`true` = no error).
`utf8.ValidString` is identically true on the `List Char` representation. -/
def checkPathKind (kind : PathKind) (p : GoStr) : Bool :=
  (¬ p = [] : Bool) &&
  (¬ p.head? = some '-' : Bool) &&
  (¬ hasSubstring p ['/', '/'] : Bool) &&
  (¬ p.getLast? = some '/' : Bool) &&
  (splitOnCh '/' p).all (checkElem kind)

/-- `module.CheckPath` (`true` = no error). -/
def checkPathGo (p : GoStr) : Bool :=
  checkPathKind .modulePath p &&
  (let first := p.takeWhile (fun c => ¬ c = '/')
   (¬ first = [] : Bool) && first.contains '.' && (¬ p.head? = some '-' : Bool) &&
     first.all firstPathOK) &&
  (splitPathVersion p).isSome

/-- `module.CheckImportPath` (`true` = no error). -/
def checkImportPathGo (p : GoStr) : Bool := checkPathKind .importPath p

/-! ## `upgradePath` (src/main.go:324-355)

The error cases are represented by an inductive matching the `fmt.Errorf`
sites one-for-one. -/

/-- The literal `"v"`. -/
def vStr : GoStr := ['v']

/-- The literal `"/v"`. -/
def slashV : GoStr := ['/', 'v']

/-- The literal `"v0"`. -/
def vZero : GoStr := "v0".data

/-- The literal `"v1"`. -/
def vOne : GoStr := "v1".data

/-- The literal `"v2"`. -/
def vTwo : GoStr := "v2".data

/-- The literal `"v3"`. -/
def vThree : GoStr := "v3".data

/-- The literal `"/v3"`. -/
def slashV3 : GoStr := "/v3".data

/-- The literal `"/v2"`. -/
def slashV2 : GoStr := "/v2".data

/-- The three `fmt.Errorf` sites of `upgradePath`. -/
inductive PathError
  | invalidModulePath      -- "invalid module path: %s"
  | invalidMajorVersion    -- "invalid major version in module path: %s"
  | invalidUpgradedPath    -- "invalid module path after upgrade - %s: %s"
deriving DecidableEq

/-- `upgradePath` (src/main.go:324-355).  Note, exactly as in the source:
when `version` is empty the code runs `strconv.Atoi(strings.TrimPrefix(pathMajor, "v"))`
on the suffix returned by `SplitPathVersion`, which includes its leading
slash (`"/vN"`), so the trim removes nothing. -/
def upgradePath (p version : GoStr) : Except PathError GoStr :=
  match splitPathVersion p with
  | none => .error .invalidModulePath
  | some (pre, pathMajor) =>
    let versionE : Except PathError GoStr :=
      if version = [] then
        if pathMajor = [] then .ok vTwo
        else
          match atoi (trimPrefixStr pathMajor vStr) with
          | none => .error .invalidMajorVersion
          | some n => .ok ('v' :: Nat.toDigits 10 (n + 1).natAbs)
      else .ok version
    match versionE with
    | .error e => .error e
    | .ok version1 =>
      let major := semverMajor version1
      if major = vZero ∨ major = vOne then .ok pre
      else
        let newPath := pre ++ '/' :: major
        if checkPathGo newPath then .ok newPath else .error .invalidUpgradedPath

/-! ## Import rewriting (src/imports.go:28-139)

Files are carried as their name together with the list of their import
specifiers' quoted literal values (`ast.ImportSpec.Path.Value`).  The
loader-provided owning-module information (`pkg.Imports[p].Module.Path` in
src/imports.go, or the memoized `getModulePath` results of the
src/main.go:610-698 variant — both are per-run lookups from import path to
owning module) is abstracted as an oracle `moduleOf`;  `none` models a
missing `pkg.Imports` entry (src/imports.go:87), and the standard-library
default `modulePath := importPath` (src/imports.go:95-98) is modelled by the
oracle returning the import path itself. -/

/-- A loaded Go source file: name and quoted import literals. -/
structure GoFile where
  name : GoStr
  imports : List GoStr
deriving DecidableEq

/-- The error sites of `rewriteImports`. -/
inductive RewriteError
  | importNotFound (imp : GoStr)     -- src/imports.go:88
  | invalidImportPath (imp : GoStr)  -- src/imports.go:110
deriving DecidableEq

/-- Lookup in the Go map `upgradeMap`, modelled as an association list. -/
def mapLookup (m : List (GoStr × GoStr)) (k : GoStr) : Option GoStr :=
  match m with
  | [] => none
  | (k1, v) :: rest => if k1 = k then some v else mapLookup rest k

/-- Go map assignment `m[k] = v` (overwrite or append). -/
def mapInsert (m : List (GoStr × GoStr)) (k v : GoStr) : List (GoStr × GoStr) :=
  match m with
  | [] => [(k, v)]
  | (k1, v1) :: rest => if k1 = k then (k, v) :: rest else (k1, v1) :: mapInsert rest k v

/-- Building `upgradeMap` from the `upgrades` slice (src/imports.go:33-36). -/
def buildUpgradeMap (ups : List (GoStr × GoStr)) : List (GoStr × GoStr) :=
  ups.foldl (fun m kv => mapInsert m kv.1 kv.2) []

/-- The per-file import loop of `rewriteImports` (src/imports.go:78-118):
returns the file's import literals after the pass together with the `found`
flag, or the error that aborts the whole rewrite. -/
def rewriteFileImports (um : List (GoStr × GoStr)) (moduleOf : GoStr → Option GoStr) :
    List GoStr → Except RewriteError (List GoStr × Bool)
  | [] => .ok ([], false)
  | v :: rest =>
    match moduleOf (trimQuotes v) with
    | none => .error (.importNotFound (trimQuotes v))
    | some modulePath =>
      match mapLookup um modulePath with
      | some newPath =>
        if checkImportPathGo (replaceOnce modulePath newPath (trimQuotes v)) then
          match rewriteFileImports um moduleOf rest with
          | .error e => .error e
          | .ok (vs, _) => .ok (quoteStr (replaceOnce modulePath newPath (trimQuotes v)) :: vs, true)
        else .error (.invalidImportPath (replaceOnce modulePath newPath (trimQuotes v)))
      | none =>
        match rewriteFileImports um moduleOf rest with
        | .error e => .error e
        | .ok (vs, f) => .ok (v :: vs, f)

/-- The file loop of `rewriteImports` (src/imports.go:52-129): files outside
the module directory are skipped (src/imports.go:59-69), files already
visited are skipped (src/imports.go:71-76), and a file is staged in
`modified` only when its `found` flag is set (src/imports.go:120-128).
Returns the staged files — exactly those written at src/imports.go:131-137. -/
def rewriteFiles (um : List (GoStr × GoStr)) (moduleOf : GoStr → Option GoStr)
    (absDir : GoStr) : List GoFile → List GoStr → Except RewriteError (List GoFile)
  | [], _ => .ok []
  | f :: rest, visited =>
    if ¬ absDir.isPrefixOf f.name then rewriteFiles um moduleOf absDir rest visited
    else if f.name ∈ visited then rewriteFiles um moduleOf absDir rest visited
    else
      match rewriteFileImports um moduleOf f.imports with
      | .error e => .error e
      | .ok (newImps, found) =>
        match rewriteFiles um moduleOf absDir rest (f.name :: visited) with
        | .error e => .error e
        | .ok mods => .ok (if found then ⟨f.name, newImps⟩ :: mods else mods)

/-- `rewriteImports` (src/imports.go:28-139).  `absDir` is the absolute module
directory, `pkgs` the loader's packages, each a list of files; the result is
the list of staged (hence written) files. -/
def rewriteImports (absDir : GoStr) (upgrades : List (GoStr × GoStr))
    (moduleOf : GoStr → Option GoStr) (pkgs : List (List GoFile)) :
    Except RewriteError (List GoFile) :=
  if upgrades = [] then .ok []
  else rewriteFiles (buildUpgradeMap upgrades) moduleOf absDir pkgs.flatten []

/-! ## The manifest edit of `upgradeDependency` (src/main.go:210-267)

The `go.mod` requirement list is carried abstractly; `DropRequire` removes
every entry for a path, `AddRequire` updates the first entry for a path and
removes duplicates, else appends (the `golang.org/x/mod/modfile` list-level
semantics). -/

/-- One `require` directive. -/
structure Require where
  path : GoStr
  version : GoStr
  indirect : Bool
deriving DecidableEq

/-- The mutable locals of the requirement scan (src/main.go:211-216). -/
structure ScanState where
  found : Bool
  oldVersion : GoStr
  alreadyExists : Bool
  removePreexisting : Bool
  fullVersion : GoStr
deriving DecidableEq

/-- The requirement scan (src/main.go:217-233).  The `switch` tries
`case path` before `case newPath`, so a requirement equal to both only sets
`found`. -/
def scanRequires (path newPath version : GoStr) : ScanState → List Require → ScanState
  | st, [] => st
  | st, r :: rest =>
    let st1 :=
      if r.path = path then { st with found := true, oldVersion := r.version }
      else if r.path = newPath then
        if version.isPrefixOf r.version then
          { st with alreadyExists := true, fullVersion := r.version }
        else { st with removePreexisting := true }
      else st
    scanRequires path newPath version st1 rest

/-- `modfile.File.DropRequire`: remove every requirement for `p`. -/
def dropRequire (p : GoStr) (reqs : List Require) : List Require :=
  reqs.filter (fun r => decide (¬ r.path = p))

/-- `modfile.File.AddRequire`: set the first requirement for `p` to version
`v` (keeping its indirect marking) and drop later duplicates, or append a new
direct requirement when none exists. -/
def addRequire (p v : GoStr) : List Require → List Require
  | [] => [⟨p, v, false⟩]
  | r :: rest =>
    if r.path = p then { r with version := v } :: dropRequire p rest
    else r :: addRequire p v rest

/-- The errors of the dependency upgrade flow. -/
inductive DepError
  | notADependency               -- "Module not a known dependency" (src/main.go:236)
  | rewrite (e : RewriteError)   -- an error from rewriteImports (src/main.go:263-265)
deriving DecidableEq

/-- The manifest edit of `upgradeDependency` (src/main.go:210-257): scan the
requirements, fail when `path` is not required, then drop `path`, drop a
stale `newPath` entry when one existed without matching the version query,
and add `newPath` at the resolved version unless a matching entry already
existed.  `fullVersion` is the version resolved before the edit
(src/main.go:177-208). -/
def applyDependencyUpgrade (reqs : List Require) (path newPath version fullVersion : GoStr) :
    Except DepError (List Require) :=
  let st := scanRequires path newPath version ⟨false, [], false, false, fullVersion⟩ reqs
  if ¬ st.found then .error .notADependency
  else
    let reqs1 := dropRequire path reqs
    let reqs2 := if st.removePreexisting then dropRequire newPath reqs1 else reqs1
    let reqs3 := if ¬ st.alreadyExists then addRequire newPath st.fullVersion reqs2 else reqs2
    .ok reqs3

/-- `upgradeDependency` after version resolution (src/main.go:210-267): the
manifest edit followed, when the path changed, by the import rewrite.  On any
error nothing is persisted: the edited requirement list is only written by
`writeModFile` after `upgradeDependency` returns (src/main.go:100), and
`log.Fatalf` aborts before it (`.error` here), so the result carries both the
new requirements and the staged files or neither. -/
def upgradeDependencyGo (reqs : List Require) (path newPath version fullVersion : GoStr)
    (absDir : GoStr) (moduleOf : GoStr → Option GoStr) (pkgs : List (List GoFile)) :
    Except DepError (List Require × List GoFile) :=
  match applyDependencyUpgrade reqs path newPath version fullVersion with
  | .error e => .error e
  | .ok reqs1 =>
    if ¬ newPath = path then
      match rewriteImports absDir [(path, newPath)] moduleOf pkgs with
      | .error e => .error (.rewrite e)
      | .ok mods => .ok (reqs1, mods)
    else .ok (reqs1, [])

/-! ## `getUpgradeVersion` (src/main.go:357-446)

The `go list -m -e -json` probe for `PRE/vN@vN` is abstracted as an oracle
from the major number `N` to the decoded result; `getMinorUpdateVersion`
(src/main.go:448-493) is abstracted as its result.  The unbounded `for` loop
is given fuel counting batches: a `none` result means the loop was still
running when the fuel ran out. -/

/-- One decoded result of `go list -m -e -json` (src/main.go:426-431):
`err = []` models `Error.Err == ""`. -/
structure ListResult where
  version : GoStr
  err : GoStr
deriving DecidableEq

/-- `batchSize` (src/main.go:357). -/
def batchSize : Nat := 5

/-- The batch construction (src/main.go:404-409): probes for majors
`v, v+1, ..., v+n-1` in order. -/
def batchProbes (probe : Int → ListResult) : Int → Nat → List ListResult
  | _, 0 => []
  | v, n + 1 => probe v :: batchProbes probe (v + 1) n

/-- The result scan (src/main.go:425-444): each success overwrites
`upgradeVersion`; the first result with a non-empty error returns the
accumulated value (`Sum.inl`); a fully scanned batch continues
(`Sum.inr`). -/
def scanResults : GoStr → List ListResult → Sum GoStr GoStr
  | acc, [] => .inr acc
  | acc, r :: rest => if r.err = [] then scanResults r.version rest else .inl acc

/-- The unbounded probe loop (src/main.go:400-445) with fuel in batches. -/
def goListLoop (probe : Int → ListResult) : Nat → Int → GoStr → Option GoStr
  | 0, _, _ => none
  | fuel + 1, version, acc =>
    match scanResults acc (batchProbes probe version batchSize) with
    | .inl v => some v
    | .inr acc2 => goListLoop probe fuel (version + batchSize) acc2

/-- The error sites of `getUpgradeVersion` before the loop. -/
inductive GetVersionError
  | invalidModulePath    -- src/main.go:363
  | invalidPathMajor     -- src/main.go:373
  | minorUpdateFailed    -- src/main.go:382
  | invalidMinorVersion  -- src/main.go:388
deriving DecidableEq

/-- `getUpgradeVersion` (src/main.go:359-446).  A result of `.ok (some s)` is
Go's `(s, nil)` — `s` empty meaning no upgrade available; `.ok none` means
the loop exceeded its fuel.  Note the suffixed branch trims `"/v"`
(src/main.go:371), unlike `upgradePath`. -/
def getUpgradeVersion (path : GoStr) (minorUpdate : Except Unit GoStr)
    (probe : Int → ListResult) (fuel : Nat) : Except GetVersionError (Option GoStr) :=
  match splitPathVersion path with
  | none => .error .invalidModulePath
  | some (_, pathMajor) =>
    let startE : Except GetVersionError Int :=
      if ¬ pathMajor = [] then
        match atoi (trimPrefixStr pathMajor slashV) with
        | none => .error .invalidPathMajor
        | some n => .ok (n + 1)
      else
        match minorUpdate with
        | .error _ => .error .minorUpdateFailed
        | .ok mv =>
          match atoi (trimPrefixStr (semverMajor mv) vStr) with
          | none => .error .invalidMinorVersion
          | some n => .ok (if n + 1 < 2 then 2 else n + 1)
    match startE with
    | .error e => .error e
    | .ok start => .ok (goListLoop probe fuel start [])

namespace Legacy

/-! ## The legacy variant (src/unnamed/part_000:226-297) -/

/-- `batchSize` (src/unnamed/part_000:226). -/
def batchSize : Nat := 25

/-- The error message fragment matched by the legacy scan
(src/unnamed/part_000:290). -/
def noMatchingMsg : GoStr := "no matching versions for query".data

/-- The legacy result scan (src/unnamed/part_000:272-295): successes
overwrite the accumulator, an error whose text contains
`"no matching versions for query"` returns it, and any other error is only
logged — the scan continues. -/
def scanResults : GoStr → List ListResult → Sum GoStr GoStr
  | acc, [] => .inr acc
  | acc, r :: rest =>
    if r.err = [] then Legacy.scanResults r.version rest
    else if hasSubstring r.err noMatchingMsg then .inl acc
    else Legacy.scanResults acc rest

/-- The legacy probe loop (src/unnamed/part_000:252-296) with fuel in
batches. -/
def goListLoop (probe : Int → ListResult) : Nat → Int → GoStr → Option GoStr
  | 0, _, _ => none
  | fuel + 1, version, acc =>
    match Legacy.scanResults acc (batchProbes probe version Legacy.batchSize) with
    | .inl v => some v
    | .inr acc2 => Legacy.goListLoop probe fuel (version + Legacy.batchSize) acc2

/-- `GetUpgradeVersion` (src/unnamed/part_000:228-297).  The suffixed-path
branch re-declares `version` with `:=` (src/unnamed/part_000:242), shadowing
the outer counter, so only its error is observable and the loop always
starts at 2; and it too trims `"v"` from a suffix that starts with `"/"` or
`"."`, so every suffixed path fails here. -/
def GetUpgradeVersion (path : GoStr) (probe : Int → ListResult) (fuel : Nat) :
    Except GetVersionError (Option GoStr) :=
  match splitPathVersion path with
  | none => .error .invalidModulePath
  | some (_, pathMajor) =>
    if ¬ pathMajor = [] ∧ atoi (trimPrefixStr pathMajor vStr) = none then
      .error .invalidPathMajor
    else .ok (Legacy.goListLoop probe fuel 2 [])

end Legacy

/-! ## Concrete scenario data shared by several witnesses -/

/-- The upgrade slice `{example.com/dep -> example.com/dep/v5}`. -/
def exUpgrades : List (GoStr × GoStr) :=
  [("example.com/dep".data, "example.com/dep/v5".data)]

/-- The upgrade map built from `exUpgrades`. -/
def exUM : List (GoStr × GoStr) := buildUpgradeMap exUpgrades

/-- Owning-module resolution of the disambiguation scenario:
`example.com/dep/v3/sub` belongs to module `example.com/dep/v3`,
`example.com/dep/sub` to module `example.com/dep`; anything else (standard
library etc.) resolves to itself. -/
def exModuleOf : GoStr → Option GoStr := fun s =>
  if s = "example.com/dep/v3/sub".data then some "example.com/dep/v3".data
  else if s = "example.com/dep/sub".data then some "example.com/dep".data
  else some s

/-! ## C2 -/

/-- C2: the claim states that `upgradePath(P, "")` increments an existing
major suffix (`P/vN ↦ P/v(N+1)`) and adds `/v2` when there is none.  The
second half holds, but on every suffixed path the code errors instead:
`SplitPathVersion` yields the suffix *with* its leading slash (`"/v2"`),
`strings.TrimPrefix(pathMajor, "v")` therefore strips nothing
(src/main.go:335 — contrast src/main.go:371, which correctly trims `"/v"`),
and `strconv.Atoi("/v2")` fails, so the whole no-argument upgrade of a
`/v2+` module aborts, contradicting the tool's own usage text
("Increments the major version component of its path"). -/
theorem upgradePath_empty_version_code_bug :
    upgradePath "example.com/mod".data [] = .ok "example.com/mod/v2".data ∧
    upgradePath "example.com/mod/v2".data [] = .error .invalidMajorVersion := by
  constructor <;> decide

/-! ## C5 -/

/-- C5: for every module path accepted by `SplitPathVersion` and every target
version whose semver major is `v0` or `v1`, `upgradePath` returns the bare
path with any major suffix removed (src/main.go:344-348). -/
theorem upgradePath_v0_v1_strips_suffix (p version pre pm : GoStr)
    (hsplit : splitPathVersion p = some (pre, pm))
    (hmaj : semverMajor version = vZero ∨ semverMajor version = vOne) :
    upgradePath p version = .ok pre := by
  have hne : ¬ version = [] := by
    intro h
    subst h
    rcases hmaj with h | h <;> exact absurd h (by decide)
  unfold upgradePath
  rw [hsplit]
  simp only [hne, if_false, if_neg hne]
  rw [if_pos hmaj]

/-- C5 witness: `example.com/mod/v2` downgraded to `v1.5.0` yields the bare
path `example.com/mod`. -/
theorem upgradePath_v0_v1_strips_suffix_witness :
    (splitPathVersion "example.com/mod/v2".data
        = some ("example.com/mod".data, "/v2".data) ∧
      semverMajor "v1.5.0".data = vOne) ∧
    upgradePath "example.com/mod/v2".data "v1.5.0".data = .ok "example.com/mod".data :=
  ⟨⟨by decide, by decide⟩,
    upgradePath_v0_v1_strips_suffix "example.com/mod/v2".data "v1.5.0".data
      "example.com/mod".data "/v2".data (by decide) (Or.inr (by decide))⟩

/-! ## C10 -/

/-- C10: a loaded file whose name does not have the absolute module directory
as a prefix is skipped entirely by the file loop (src/imports.go:59-69): the
rewrite proceeds exactly as if the file were not there, so its imports are
never inspected and it is never staged, whatever its imports resolve to. -/
theorem rewriteFiles_skips_outside_module_dir (um : List (GoStr × GoStr))
    (moduleOf : GoStr → Option GoStr) (absDir : GoStr) (f : GoFile)
    (rest : List GoFile) (visited : List GoStr)
    (h : ¬ absDir.isPrefixOf f.name = true) :
    rewriteFiles um moduleOf absDir (f :: rest) visited =
      rewriteFiles um moduleOf absDir rest visited := by
  conv_lhs => rw [rewriteFiles]
  rw [if_pos h]

/-- C10 witness: a cache file outside the module directory importing
`example.com/dep/sub` — whose owning module is in the upgrade map — is not
staged. -/
theorem rewriteFiles_skips_outside_module_dir_witness :
    rewriteFiles exUM exModuleOf "/home/user/mod".data
      [⟨"/root/.cache/go-build/x.go".data, [quoteStr "example.com/dep/sub".data]⟩] []
      = .ok [] :=
  (rewriteFiles_skips_outside_module_dir exUM exModuleOf "/home/user/mod".data
    ⟨"/root/.cache/go-build/x.go".data, [quoteStr "example.com/dep/sub".data]⟩ [] []
    (by decide)).trans rfl

/-! ## C1 -/

/-- The rewrite relation described by the spec, per import: `some` (with the
rewritten, re-quoted literal) exactly when the import's owning module — as
given by the per-run import-to-module lookup — is a key of the upgrade map;
`none` otherwise. -/
def rewriteImportSpec (um : List (GoStr × GoStr)) (moduleOf : GoStr → Option GoStr)
    (v : GoStr) : Option GoStr :=
  match moduleOf (trimQuotes v) with
  | none => none
  | some m =>
    match mapLookup um m with
    | some np => some (quoteStr (replaceOnce m np (trimQuotes v)))
    | none => none

/-- C1: whenever the per-file import loop completes, an import literal is
rewritten if and only if its owning module path (resolved through the per-run
lookup from import path to module, not by string-prefix matching on the
path of the import) is a key of the upgrade map — the output literals are exactly
`rewriteImportSpec` where it hits and the unchanged literal where it misses,
and the `found` flag is set exactly when some import hit
(src/imports.go:79-118). -/
theorem rewriteFileImports_rewrites_iff_module_in_map
    (um : List (GoStr × GoStr)) (moduleOf : GoStr → Option GoStr)
    (imps out : List GoStr) (found : Bool)
    (h : rewriteFileImports um moduleOf imps = .ok (out, found)) :
    out = imps.map (fun v => (rewriteImportSpec um moduleOf v).getD v) ∧
      found = imps.any (fun v => (rewriteImportSpec um moduleOf v).isSome) := by
  induction imps generalizing out found with
  | nil =>
    unfold rewriteFileImports at h
    injection h with h1
    injection h1 with ha hb
    simp [← ha, ← hb]
  | cons v rest ih =>
    unfold rewriteFileImports at h
    cases hmo : moduleOf (trimQuotes v) with
    | none =>
      simp only [hmo] at h
      exact absurd h (by simp)
    | some m =>
      simp only [hmo] at h
      cases hlk : mapLookup um m with
      | some np =>
        simp only [hlk] at h
        by_cases hchk : checkImportPathGo (replaceOnce m np (trimQuotes v)) = true
        · rw [if_pos hchk] at h
          cases hrec : rewriteFileImports um moduleOf rest with
          | error e =>
            simp only [hrec] at h
            exact absurd h (by simp)
          | ok pr =>
            obtain ⟨vs, fl⟩ := pr
            simp only [hrec] at h
            injection h with h1
            injection h1 with ha hb
            obtain ⟨ih1, ih2⟩ := ih vs fl hrec
            constructor
            · rw [← ha]
              simp [rewriteImportSpec, hmo, hlk, ih1]
            · rw [← hb]
              simp [rewriteImportSpec, hmo, hlk]
        · rw [if_neg hchk] at h
          exact absurd h (by simp)
      | none =>
        simp only [hlk] at h
        cases hrec : rewriteFileImports um moduleOf rest with
        | error e =>
          simp only [hrec] at h
          exact absurd h (by simp)
        | ok pr =>
          obtain ⟨vs, fl⟩ := pr
          simp only [hrec] at h
          injection h with h1
          injection h1 with ha hb
          obtain ⟨ih1, ih2⟩ := ih vs fl hrec
          constructor
          · rw [← ha]
            simp [rewriteImportSpec, hmo, hlk, ih1]
          · rw [← hb]
            simp [rewriteImportSpec, hmo, hlk, ih2]

/-- C1 witness — the disambiguation scenario: under the map
`{example.com/dep -> example.com/dep/v5}`, a file importing both
`example.com/dep/v3/sub` (module `example.com/dep/v3`) and
`example.com/dep/sub` (module `example.com/dep`) gets only its second
one rewritten, to `example.com/dep/v5/sub`. -/
theorem rewriteFileImports_disambiguation_witness :
    rewriteFileImports exUM exModuleOf
        [quoteStr "example.com/dep/v3/sub".data, quoteStr "example.com/dep/sub".data]
      = .ok ([quoteStr "example.com/dep/v3/sub".data,
              quoteStr "example.com/dep/v5/sub".data], true) ∧
    ([quoteStr "example.com/dep/v3/sub".data, quoteStr "example.com/dep/v5/sub".data]
        = [quoteStr "example.com/dep/v3/sub".data, quoteStr "example.com/dep/sub".data].map
            (fun v => (rewriteImportSpec exUM exModuleOf v).getD v) ∧
      true = [quoteStr "example.com/dep/v3/sub".data,
              quoteStr "example.com/dep/sub".data].any
            (fun v => (rewriteImportSpec exUM exModuleOf v).isSome)) :=
  ⟨by decide,
    rewriteFileImports_rewrites_iff_module_in_map exUM exModuleOf
      [quoteStr "example.com/dep/v3/sub".data, quoteStr "example.com/dep/sub".data]
      [quoteStr "example.com/dep/v3/sub".data, quoteStr "example.com/dep/v5/sub".data]
      true (by decide)⟩

/-! ## C8 -/

/-- Per-file form of C8: when every import of the list resolves to a module
that is not a key of the upgrade map, the loop returns the very same
literals with `found = false`. -/
theorem rewriteFileImports_no_match (um : List (GoStr × GoStr))
    (moduleOf : GoStr → Option GoStr) (imps : List GoStr)
    (h : ∀ v ∈ imps, (moduleOf (trimQuotes v)).isSome = true ∧
      mapLookup um ((moduleOf (trimQuotes v)).getD []) = none) :
    rewriteFileImports um moduleOf imps = .ok (imps, false) := by
  induction imps with
  | nil => rfl
  | cons v rest ih =>
    obtain ⟨hs, hlk⟩ := h v (by simp)
    cases hmo : moduleOf (trimQuotes v) with
    | none => rw [hmo] at hs; exact absurd hs (by simp)
    | some m =>
      rw [hmo] at hlk
      simp only [Option.getD_some] at hlk
      unfold rewriteFileImports
      simp only [hmo, hlk, ih (fun w hw => h w (by simp [hw]))]

/-- The file loop stages nothing when every file's import pass comes back
unchanged with `found = false`. -/
theorem rewriteFiles_no_match (um : List (GoStr × GoStr))
    (moduleOf : GoStr → Option GoStr) (absDir : GoStr) (files : List GoFile)
    (visited : List GoStr)
    (h : ∀ f ∈ files, rewriteFileImports um moduleOf f.imports = .ok (f.imports, false)) :
    rewriteFiles um moduleOf absDir files visited = .ok [] := by
  induction files generalizing visited with
  | nil => rfl
  | cons f rest ih =>
    unfold rewriteFiles
    by_cases h1 : List.isPrefixOf absDir f.name = true
    · rw [if_neg (by simp [h1])]
      by_cases h2 : f.name ∈ visited
      · rw [if_pos h2]
        exact ih visited (fun g hg => h g (by simp [hg]))
      · rw [if_neg h2, h f (by simp),
          ih (f.name :: visited) (fun g hg => h g (by simp [hg]))]
        simp
    · rw [if_pos h1]
      exact ih visited (fun g hg => h g (by simp [hg]))

/-- C8: a run of `rewriteImports` in which no file has any import owned by a
module of the upgrade map stages and writes nothing (`modified` stays empty,
src/imports.go:120-137), and every file's import list comes back exactly as
it went in with `found = false` — its content is untouched. -/
theorem rewriteImports_no_match_stages_nothing (absDir : GoStr)
    (ups : List (GoStr × GoStr)) (moduleOf : GoStr → Option GoStr)
    (pkgs : List (List GoFile))
    (h : ∀ f ∈ pkgs.flatten, ∀ v ∈ f.imports,
      (moduleOf (trimQuotes v)).isSome = true ∧
        mapLookup (buildUpgradeMap ups) ((moduleOf (trimQuotes v)).getD []) = none) :
    rewriteImports absDir ups moduleOf pkgs = .ok [] ∧
      ∀ f ∈ pkgs.flatten,
        rewriteFileImports (buildUpgradeMap ups) moduleOf f.imports
          = .ok (f.imports, false) := by
  have hfile : ∀ f ∈ pkgs.flatten,
      rewriteFileImports (buildUpgradeMap ups) moduleOf f.imports
        = .ok (f.imports, false) :=
    fun f hf => rewriteFileImports_no_match _ _ _ (h f hf)
  refine ⟨?_, hfile⟩
  unfold rewriteImports
  by_cases hu : ups = []
  · rw [if_pos hu]
  · rw [if_neg hu]
    exact rewriteFiles_no_match _ _ _ _ _ hfile

/-- C8 witness: a module file importing only `fmt` (resolving to itself) and
`example.com/other/sub` (module `example.com/other`, not in the map) is left
unchanged and nothing is staged. -/
theorem rewriteImports_no_match_witness :
    rewriteImports "/home/user/mod".data exUpgrades exModuleOf
        [[⟨"/home/user/mod/a.go".data,
           [quoteStr "fmt".data, quoteStr "example.com/other/sub".data]⟩]] = .ok [] ∧
      ∀ f ∈ ([[⟨"/home/user/mod/a.go".data,
           [quoteStr "fmt".data, quoteStr "example.com/other/sub".data]⟩]] :
             List (List GoFile)).flatten,
        rewriteFileImports (buildUpgradeMap exUpgrades) exModuleOf f.imports
          = .ok (f.imports, false) :=
  rewriteImports_no_match_stages_nothing "/home/user/mod".data exUpgrades exModuleOf
    [[⟨"/home/user/mod/a.go".data,
       [quoteStr "fmt".data, quoteStr "example.com/other/sub".data]⟩]] (by decide)

/-! ## C9 -/

/-- The `found` flag after the requirement scan is set exactly when some
requirement's path equals the target path (src/main.go:217-221). -/
theorem scanRequires_found (path newPath version : GoStr) (st : ScanState)
    (l : List Require) :
    (scanRequires path newPath version st l).found
      = (st.found || l.any (fun r => decide (r.path = path))) := by
  induction l generalizing st with
  | nil => simp [scanRequires]
  | cons r rest ih =>
    unfold scanRequires
    rw [ih]
    by_cases h1 : r.path = path
    · simp [h1]
    · by_cases h2 : r.path = newPath
      · rw [h2] at h1
        by_cases h3 : version.isPrefixOf r.version = true <;>
          simp [h1, h2, h3]
      · simp [h1, h2]

/-- C9: when the module path being upgraded is absent from the requirement
list, the dependency upgrade fails with the not-a-dependency error
(src/main.go:235-237) before any edit: no requirement is dropped or added and
no import rewrite (hence no file write) takes place — the error is raised
before `DropRequire`/`AddRequire` (src/main.go:245-257) and before
`rewriteImports` (src/main.go:259-266), and the `go.mod` write only happens
after a successful return (src/main.go:100). -/
theorem upgradeDependency_not_a_dependency (reqs : List Require)
    (path newPath version fullVersion absDir : GoStr)
    (moduleOf : GoStr → Option GoStr) (pkgs : List (List GoFile))
    (h : ∀ r ∈ reqs, ¬ r.path = path) :
    upgradeDependencyGo reqs path newPath version fullVersion absDir moduleOf pkgs
      = .error .notADependency := by
  have hfound :
      (scanRequires path newPath version ⟨false, [], false, false, fullVersion⟩ reqs).found
        = false := by
    rw [scanRequires_found]
    simp only [Bool.false_or, List.any_eq_false]
    intro r hr
    simpa using h r hr
  unfold upgradeDependencyGo applyDependencyUpgrade
  rw [if_pos (by simp [hfound])]

/-- C9 witness: upgrading `example.com/old`, not present in a manifest that
requires only `example.com/other`, fails with the not-a-dependency error. -/
theorem upgradeDependency_not_a_dependency_witness :
    upgradeDependencyGo [⟨"example.com/other".data, "v1.2.3".data, false⟩]
        "example.com/old".data "example.com/new".data "v5".data "v5.0.0".data
        "/home/user/mod".data exModuleOf [] = .error .notADependency :=
  upgradeDependency_not_a_dependency [⟨"example.com/other".data, "v1.2.3".data, false⟩]
    "example.com/old".data "example.com/new".data "v5".data "v5.0.0".data
    "/home/user/mod".data exModuleOf [] (by decide)

/-! ## C4 -/

/-- `alreadyExists` after the scan: set exactly when some requirement, not
matching the old path, matches the new path with a version that the target
version query prefix-matches (src/main.go:222-227). -/
theorem scanRequires_alreadyExists (path newPath version : GoStr) (st : ScanState)
    (l : List Require) :
    (scanRequires path newPath version st l).alreadyExists
      = (st.alreadyExists || l.any (fun r =>
          !decide (r.path = path) && decide (r.path = newPath)
            && List.isPrefixOf version r.version)) := by
  induction l generalizing st with
  | nil => simp [scanRequires]
  | cons r rest ih =>
    unfold scanRequires
    rw [ih]
    by_cases h1 : r.path = path
    · simp [h1]
    · by_cases h2 : r.path = newPath
      · rw [h2] at h1
        by_cases h3 : List.isPrefixOf version r.version = true <;>
          simp [h1, h2, h3]
      · simp [h1, h2]

/-- `removePreexisting` after the scan: set exactly when some requirement,
not matching the old path, matches the new path with a version the target
version query does not prefix-match (src/main.go:228-231). -/
theorem scanRequires_removePreexisting (path newPath version : GoStr) (st : ScanState)
    (l : List Require) :
    (scanRequires path newPath version st l).removePreexisting
      = (st.removePreexisting || l.any (fun r =>
          !decide (r.path = path) && decide (r.path = newPath)
            && !List.isPrefixOf version r.version)) := by
  induction l generalizing st with
  | nil => simp [scanRequires]
  | cons r rest ih =>
    unfold scanRequires
    rw [ih]
    by_cases h1 : r.path = path
    · simp [h1]
    · by_cases h2 : r.path = newPath
      · rw [h2] at h1
        by_cases h3 : List.isPrefixOf version r.version = true <;>
          simp [h1, h2, h3]
      · simp [h1, h2]

/-- `fullVersion` is untouched by the scan when no requirement triggers the
`alreadyExists` assignment (src/main.go:226-227). -/
theorem scanRequires_fullVersion_const (path newPath version : GoStr) (st : ScanState)
    (l : List Require)
    (h : ∀ r ∈ l, ¬ (¬ r.path = path ∧ r.path = newPath ∧
      List.isPrefixOf version r.version = true)) :
    (scanRequires path newPath version st l).fullVersion = st.fullVersion := by
  induction l generalizing st with
  | nil => rfl
  | cons r rest ih =>
    have htail : ∀ x ∈ rest, ¬ (¬ x.path = path ∧ x.path = newPath ∧
        List.isPrefixOf version x.version = true) := fun x hx => h x (by simp [hx])
    unfold scanRequires
    by_cases h1 : r.path = path
    · rw [if_pos h1]
      exact ih _ htail
    · rw [if_neg h1]
      by_cases h2 : r.path = newPath
      · rw [if_pos h2]
        by_cases h3 : List.isPrefixOf version r.version = true
        · exact absurd ⟨h1, h2, h3⟩ (h r (by simp))
        · rw [if_neg h3]
          exact ih _ htail
      · rw [if_neg h2]
        exact ih _ htail

/-- Membership in `dropRequire`. -/
theorem mem_dropRequire {r : Require} {p : GoStr} {l : List Require} :
    r ∈ dropRequire p l ↔ r ∈ l ∧ ¬ r.path = p := by
  simp [dropRequire]

/-- When no requirement for `p` is present, `AddRequire` appends a new direct
requirement at the end. -/
theorem addRequire_append (p v : GoStr) (l : List Require)
    (h : ∀ r ∈ l, ¬ r.path = p) :
    addRequire p v l = l ++ [⟨p, v, false⟩] := by
  induction l with
  | nil => rfl
  | cons r rest ih =>
    unfold addRequire
    rw [if_neg (h r (by simp)), ih (fun x hx => h x (by simp [hx]))]
    rfl

/-- Any member of `addRequire p v l` either has path `p` or was a member of
`l`. -/
theorem mem_addRequire {p v : GoStr} {l : List Require} {x : Require}
    (h : x ∈ addRequire p v l) : x.path = p ∨ x ∈ l := by
  induction l with
  | nil =>
    unfold addRequire at h
    rcases List.mem_singleton.mp h with he
    left
    rw [he]
  | cons r rest ih =>
    unfold addRequire at h
    by_cases h1 : r.path = p
    · rw [if_pos h1] at h
      rcases List.mem_cons.mp h with he | hm
      · left
        rw [he]
        exact h1
      · exact Or.inr (List.mem_cons_of_mem _ (mem_dropRequire.mp hm).1)
    · rw [if_neg h1] at h
      rcases List.mem_cons.mp h with he | hm
      · right
        simp [he]
      · rcases ih hm with hp | hr
        · exact Or.inl hp
        · exact Or.inr (by simp [hr])

/-- C4: the manifest edit realizes the decision table (src/main.go:210-257).
Under the manifest invariant (requirement paths pairwise distinct) and with
`path` required and distinct from `newPath`, the edit succeeds and:
the requirement for the old path is always dropped; when no requirement for
the new path exists, `newPath@fullVersion` is appended; when one exists and
its version prefix-matches the target version query, it is kept untouched
(no overwrite); when one exists but does not prefix-match, it is dropped and
`newPath@fullVersion` is added. -/
theorem applyDependencyUpgrade_decision_table
    (reqs : List Require) (path newPath version fullVersion : GoStr)
    (hne : ¬ path = newPath)
    (huniq : reqs.Pairwise (fun a b => ¬ a.path = b.path))
    (hfound : ∃ r ∈ reqs, r.path = path) :
    ∃ reqs1, applyDependencyUpgrade reqs path newPath version fullVersion = .ok reqs1 ∧
      (∀ r ∈ reqs1, ¬ r.path = path) ∧
      ((∀ r ∈ reqs, ¬ r.path = newPath) →
        reqs1 = dropRequire path reqs ++ [⟨newPath, fullVersion, false⟩]) ∧
      (∀ r ∈ reqs, r.path = newPath → List.isPrefixOf version r.version = true →
        reqs1 = dropRequire path reqs ∧ r ∈ reqs1) ∧
      (∀ r ∈ reqs, r.path = newPath → ¬ List.isPrefixOf version r.version = true →
        reqs1 = dropRequire newPath (dropRequire path reqs)
          ++ [⟨newPath, fullVersion, false⟩]) := by
  have huniq2 := huniq.forall (fun a b h => fun e => h e.symm)
  have hf : (scanRequires path newPath version
      ⟨false, [], false, false, fullVersion⟩ reqs).found = true := by
    rw [scanRequires_found]
    obtain ⟨r, hr, hp⟩ := hfound
    simp only [Bool.false_or, List.any_eq_true]
    exact ⟨r, hr, by simp [hp]⟩
  have happ : applyDependencyUpgrade reqs path newPath version fullVersion
      = .ok (if ¬ (scanRequires path newPath version
                ⟨false, [], false, false, fullVersion⟩ reqs).alreadyExists = true
             then addRequire newPath
                    (scanRequires path newPath version
                      ⟨false, [], false, false, fullVersion⟩ reqs).fullVersion
                    (if (scanRequires path newPath version
                          ⟨false, [], false, false, fullVersion⟩ reqs).removePreexisting = true
                     then dropRequire newPath (dropRequire path reqs)
                     else dropRequire path reqs)
             else (if (scanRequires path newPath version
                        ⟨false, [], false, false, fullVersion⟩ reqs).removePreexisting = true
                   then dropRequire newPath (dropRequire path reqs)
                   else dropRequire path reqs)) := by
    unfold applyDependencyUpgrade
    rw [if_neg (by simp [hf])]
  refine ⟨_, happ, ?_, ?_, ?_, ?_⟩
  · intro r hr
    by_cases hae : (scanRequires path newPath version
        ⟨false, [], false, false, fullVersion⟩ reqs).alreadyExists = true <;>
      by_cases hrp : (scanRequires path newPath version
        ⟨false, [], false, false, fullVersion⟩ reqs).removePreexisting = true <;>
      simp only [hae, hrp, not_true, not_false_iff, if_true, if_false,
        ite_true, ite_false, Bool.not_eq_true] at hr
    · exact (mem_dropRequire.mp (mem_dropRequire.mp hr).1).2
    · exact (mem_dropRequire.mp hr).2
    · rcases mem_addRequire hr with hp | hx
      · exact fun hc => hne (hc.symm.trans hp)
      · exact (mem_dropRequire.mp (mem_dropRequire.mp hx).1).2
    · rcases mem_addRequire hr with hp | hx
      · exact fun hc => hne (hc.symm.trans hp)
      · exact (mem_dropRequire.mp hx).2
  · intro hnone
    have hae : (scanRequires path newPath version
        ⟨false, [], false, false, fullVersion⟩ reqs).alreadyExists = false := by
      rw [scanRequires_alreadyExists]
      simp only [Bool.false_or, List.any_eq_false]
      intro r hr
      simp [hnone r hr]
    have hrp : (scanRequires path newPath version
        ⟨false, [], false, false, fullVersion⟩ reqs).removePreexisting = false := by
      rw [scanRequires_removePreexisting]
      simp only [Bool.false_or, List.any_eq_false]
      intro r hr
      simp [hnone r hr]
    have hfv : (scanRequires path newPath version
        ⟨false, [], false, false, fullVersion⟩ reqs).fullVersion = fullVersion := by
      apply scanRequires_fullVersion_const
      intro r hr hc
      exact (hnone r hr) hc.2.1
    rw [hae, hrp, hfv]
    rw [if_pos (by simp), if_neg (by simp)]
    exact addRequire_append _ _ _ (fun r hr => hnone r (mem_dropRequire.mp hr).1)
  · intro rm hm hp hpre
    have hmne : ¬ rm.path = path := fun hc => hne (hc.symm.trans hp)
    have hnp : ¬ newPath = path := fun e => hne e.symm
    have hae : (scanRequires path newPath version
        ⟨false, [], false, false, fullVersion⟩ reqs).alreadyExists = true := by
      rw [scanRequires_alreadyExists]
      simp only [Bool.false_or, List.any_eq_true]
      exact ⟨rm, hm, by simp [hnp, hp, hpre]⟩
    have hrp : (scanRequires path newPath version
        ⟨false, [], false, false, fullVersion⟩ reqs).removePreexisting = false := by
      rw [scanRequires_removePreexisting]
      simp only [Bool.false_or, List.any_eq_false]
      intro x hx
      by_cases hxp : x.path = newPath
      · by_cases hxe : x = rm
        · subst hxe
          simp [hpre]
        · exact absurd (hxp.trans hp.symm) (huniq2 hx hm hxe)
      · simp [hxp]
    rw [hae, hrp]
    rw [if_neg (by simp), if_neg (by simp)]
    exact ⟨rfl, mem_dropRequire.mpr ⟨hm, hmne⟩⟩
  · intro rs hs hp hnpre
    have hsne : ¬ rs.path = path := fun hc => hne (hc.symm.trans hp)
    have hnp : ¬ newPath = path := fun e => hne e.symm
    have hrp : (scanRequires path newPath version
        ⟨false, [], false, false, fullVersion⟩ reqs).removePreexisting = true := by
      rw [scanRequires_removePreexisting]
      simp only [Bool.false_or, List.any_eq_true]
      exact ⟨rs, hs, by simp [hnp, hp, hnpre]⟩
    have hae : (scanRequires path newPath version
        ⟨false, [], false, false, fullVersion⟩ reqs).alreadyExists = false := by
      rw [scanRequires_alreadyExists]
      simp only [Bool.false_or, List.any_eq_false]
      intro x hx
      by_cases hxp : x.path = newPath
      · by_cases hxe : x = rs
        · subst hxe
          simp [hnpre]
        · exact absurd (hxp.trans hp.symm) (huniq2 hx hs hxe)
      · simp [hxp]
    have hfv : (scanRequires path newPath version
        ⟨false, [], false, false, fullVersion⟩ reqs).fullVersion = fullVersion := by
      apply scanRequires_fullVersion_const
      intro x hx hc
      obtain ⟨hxne, hxp, hxpre⟩ := hc
      by_cases hxe : x = rs
      · subst hxe
        exact hnpre hxpre
      · exact absurd (hxp.trans hp.symm) (huniq2 hx hs hxe)
    rw [hae, hrp, hfv]
    rw [if_pos (by simp), if_pos (by simp)]
    exact addRequire_append _ _ _ (fun r hr => (mem_dropRequire.mp hr).2)

/-- C4 witness: from `old@v2.1.0` (with an unrelated `other` requirement
first) and no existing `new` entry, upgrading `old` to `new` at resolved
version `v5.0.0` yields a manifest with `old` absent and `new@v5.0.0`
present. -/
theorem applyDependencyUpgrade_decision_table_witness :
    ∃ reqs1, applyDependencyUpgrade
        [⟨"example.com/other".data, "v1.2.3".data, false⟩,
         ⟨"example.com/old".data, "v2.1.0".data, false⟩]
        "example.com/old".data "example.com/new".data "v5".data "v5.0.0".data
        = .ok reqs1 ∧
      (∀ r ∈ reqs1, ¬ r.path = "example.com/old".data) ∧
      ⟨"example.com/new".data, "v5.0.0".data, false⟩ ∈ reqs1 := by
  obtain ⟨reqs1, happ, hdrop, hrow1, _, _⟩ :=
    applyDependencyUpgrade_decision_table
      [⟨"example.com/other".data, "v1.2.3".data, false⟩,
       ⟨"example.com/old".data, "v2.1.0".data, false⟩]
      "example.com/old".data "example.com/new".data "v5".data "v5.0.0".data
      (by decide)
      (.cons (by decide) (.cons (by decide) .nil))
      ⟨⟨"example.com/old".data, "v2.1.0".data, false⟩, by decide, by decide⟩
  refine ⟨reqs1, happ, hdrop, ?_⟩
  rw [hrow1 (by decide)]
  decide

/-! ## C6 -/

/-- Evaluation of the probe loop under the boundary scenario: majors 2..7
exist, major 8 does not (any error class stops the scan in this version).
Two batches of five slice as 2-6 and 7-11; the first not-found is met in the
second batch. -/
theorem goListLoop_boundary_eval (pr : Int → ListResult) (ver : Int → GoStr)
    (hok : ∀ m : Int, 2 ≤ m → m ≤ 7 → pr m = ⟨ver m, []⟩)
    (h8 : ¬ (pr 8).err = []) :
    goListLoop pr 2 2 [] = some (ver 7) ∧ goListLoop pr 1 2 [] = none := by
  have e2 := hok 2 (by norm_num) (by norm_num)
  have e3 := hok 3 (by norm_num) (by norm_num)
  have e4 := hok 4 (by norm_num) (by norm_num)
  have e5 := hok 5 (by norm_num) (by norm_num)
  have e6 := hok 6 (by norm_num) (by norm_num)
  have e7 := hok 7 (by norm_num) (by norm_num)
  have hbatch1 : batchProbes pr 2 batchSize = [pr 2, pr 3, pr 4, pr 5, pr 6] := by
    norm_num [batchProbes, batchSize]
  have hbatch2 : batchProbes pr 7 batchSize = [pr 7, pr 8, pr 9, pr 10, pr 11] := by
    norm_num [batchProbes, batchSize]
  have hscan1 : scanResults [] [pr 2, pr 3, pr 4, pr 5, pr 6] = .inr (ver 6) := by
    rw [e2, e3, e4, e5, e6]
    simp [scanResults]
  have hscan2 : scanResults (ver 6) [pr 7, pr 8, pr 9, pr 10, pr 11] = .inl (ver 7) := by
    rw [e7]
    simp [scanResults, h8]
  constructor
  · have step1 : goListLoop pr 2 2 []
        = match scanResults [] (batchProbes pr 2 batchSize) with
          | .inl v => some v
          | .inr a2 => goListLoop pr 1 (2 + (batchSize : Int)) a2 := rfl
    rw [step1, hbatch1, hscan1]
    have step2 : goListLoop pr 1 (2 + (batchSize : Int)) (ver 6)
        = match scanResults (ver 6) (batchProbes pr 7 batchSize) with
          | .inl v => some v
          | .inr a2 => goListLoop pr 0 (7 + (batchSize : Int)) a2 := by
      norm_num [batchSize]
      rfl
    simp only [step2, hbatch2, hscan2]
  · have step1 : goListLoop pr 1 2 []
        = match scanResults [] (batchProbes pr 2 batchSize) with
          | .inl v => some v
          | .inr a2 => goListLoop pr 0 (2 + (batchSize : Int)) a2 := rfl
    rw [step1, hbatch1]
    simp only [hscan1]
    rfl

/-- C6: with a probe oracle under which majors 2 through 7 exist and major 8
is reported with an error (the scan boundary, src/main.go:436-443), and with
the unsuffixed start (minor update at major 1, so the search starts at 2,
src/main.go:376-396), `getUpgradeVersion` returns major 7's version within
ceil(7/batchSize) = 2 batches of fuel, does not finish within 1, and its
result does not depend on any probe beyond major 11 — the last slot of the
batch in which the first not-found occurred. -/
theorem getUpgradeVersion_boundary_termination (probe : Int → ListResult)
    (ver : Int → GoStr)
    (hok : ∀ m : Int, 2 ≤ m → m ≤ 7 → probe m = ⟨ver m, []⟩)
    (h8 : ¬ (probe 8).err = []) :
    getUpgradeVersion "example.com/mod".data (.ok "v1.0.0".data) probe 2
        = .ok (some (ver 7)) ∧
      getUpgradeVersion "example.com/mod".data (.ok "v1.0.0".data) probe 1 = .ok none ∧
      ∀ probe2 : Int → ListResult, (∀ m : Int, 2 ≤ m → m ≤ 11 → probe2 m = probe m) →
        getUpgradeVersion "example.com/mod".data (.ok "v1.0.0".data) probe2 2
          = .ok (some (ver 7)) := by
  have hstart : ∀ (pr : Int → ListResult) (fuel : Nat),
      getUpgradeVersion "example.com/mod".data (.ok "v1.0.0".data) pr fuel
        = .ok (goListLoop pr fuel 2 []) := fun pr fuel => rfl
  obtain ⟨hl2, hl1⟩ := goListLoop_boundary_eval probe ver hok h8
  refine ⟨by rw [hstart, hl2], by rw [hstart, hl1], ?_⟩
  intro probe2 hagree
  have hok2 : ∀ m : Int, 2 ≤ m → m ≤ 7 → probe2 m = ⟨ver m, []⟩ := fun m h1 h2 =>
    (hagree m h1 (by linarith)).trans (hok m h1 h2)
  have h82 : ¬ (probe2 8).err = [] := by
    rw [hagree 8 (by norm_num) (by norm_num)]
    exact h8
  rw [hstart, (goListLoop_boundary_eval probe2 ver hok2 h82).1]

/-- Concrete versions for the boundary-search scenario: major `m` resolves to
`vM.0.0`. -/
def cVer : Int → GoStr := fun m => 'v' :: intToGoStr m ++ ".0.0".data

/-- Concrete probe oracle: majors 2..7 exist, everything else is
"no matching versions for query". -/
def cProbe : Int → ListResult := fun m =>
  if 2 ≤ m ∧ m ≤ 7 then ⟨cVer m, []⟩
  else ⟨[], "no matching versions for query x".data⟩

/-- C6 witness: under `cProbe` the search returns `v7.0.0` with two batches
of fuel and is still running after one. -/
theorem getUpgradeVersion_boundary_termination_witness :
    getUpgradeVersion "example.com/mod".data (.ok "v1.0.0".data) cProbe 2
        = .ok (some "v7.0.0".data) ∧
      getUpgradeVersion "example.com/mod".data (.ok "v1.0.0".data) cProbe 1
        = .ok none := by
  obtain ⟨h1, h2, _⟩ := getUpgradeVersion_boundary_termination cProbe cVer
    (fun m hm1 hm2 => by simp [cProbe, hm1, hm2])
    (by decide)
  refine ⟨?_, h2⟩
  rw [h1]
  decide

/-! ## C3 -/

/-- Concrete probe oracle mixing error classes: major 2 exists, major 3
fails with a transient error, major 4 exists, major 5 and above are
"no matching versions for query". -/
def cProbeMixed : Int → ListResult := fun m =>
  if m = 2 then ⟨"v2.0.0".data, []⟩
  else if m = 3 then ⟨[], "503 service unavailable".data⟩
  else if m = 4 then ⟨"v4.0.0".data, []⟩
  else ⟨[], "no matching versions for query x".data⟩

/-- C3 counterexample: the claim says a non-not-found error does not
terminate the scan of `getUpgradeVersion`.  On src/main.go:436-443 any
per-result error returns immediately: under `cProbeMixed` the current
`getUpgradeVersion` stops at the transient error on major 3 and yields
`v2.0.0`, whereas the scan-continuing behavior the claim describes — which
only the legacy `GetUpgradeVersion` (src/unnamed/part_000:288-294)
implements — reaches major 4 and yields `v4.0.0`. -/
theorem getUpgradeVersion_error_terminates_counterexample :
    getUpgradeVersion "example.com/dep".data (.ok "v1.0.0".data) cProbeMixed 1
        = .ok (some "v2.0.0".data) ∧
      Legacy.GetUpgradeVersion "example.com/dep".data cProbeMixed 1
        = .ok (some "v4.0.0".data) ∧
      ¬ ("v2.0.0".data : GoStr) = "v4.0.0".data := by
  decide

/-- C3 amended: in the current `getUpgradeVersion` (src/main.go:425-444) the
first result carrying any error — not-found or not — terminates the search
and returns the last known good version; only the legacy
`GetUpgradeVersion` (src/unnamed/part_000:272-296) implements the claimed
behavior, skipping results whose error text lacks
"no matching versions for query" and terminating only at a not-found. -/
theorem getUpgradeVersion_error_scan_amended (probe : Int → ListResult)
    (r2 r4 e nf : GoStr)
    (he : ¬ e = []) (heNF : hasSubstring e Legacy.noMatchingMsg = false)
    (hnf : hasSubstring nf Legacy.noMatchingMsg = true) (hnfne : ¬ nf = [])
    (hp2 : probe 2 = ⟨r2, []⟩) (hp3 : (probe 3).err = e)
    (hp4 : probe 4 = ⟨r4, []⟩) (hp5 : (probe 5).err = nf) :
    getUpgradeVersion "example.com/dep".data (.ok "v1.0.0".data) probe 1
        = .ok (some r2) ∧
      Legacy.GetUpgradeVersion "example.com/dep".data probe 1 = .ok (some r4) := by
  constructor
  · have hstart : getUpgradeVersion "example.com/dep".data (.ok "v1.0.0".data) probe 1
        = .ok (goListLoop probe 1 2 []) := rfl
    have hb1 : batchProbes probe 2 batchSize
        = [probe 2, probe 3, probe 4, probe 5, probe 6] := by
      norm_num [batchProbes, batchSize]
    have hscan : scanResults [] [probe 2, probe 3, probe 4, probe 5, probe 6]
        = .inl r2 := by
      rw [hp2]
      simp [scanResults, hp3, he]
    have step : goListLoop probe 1 2 []
        = match scanResults [] (batchProbes probe 2 batchSize) with
          | .inl v => some v
          | .inr a2 => goListLoop probe 0 (2 + (batchSize : Int)) a2 := rfl
    rw [hstart, step, hb1]
    simp only [hscan]
  · have hstartL : Legacy.GetUpgradeVersion "example.com/dep".data probe 1
        = .ok (Legacy.goListLoop probe 1 2 []) := rfl
    have hbL : batchProbes probe 2 Legacy.batchSize
        = [probe 2, probe 3, probe 4, probe 5, probe 6, probe 7, probe 8, probe 9, probe 10, probe 11, probe 12, probe 13, probe 14, probe 15, probe 16, probe 17, probe 18, probe 19, probe 20, probe 21, probe 22, probe 23, probe 24, probe 25, probe 26] := by
      norm_num [batchProbes, Legacy.batchSize]
    have hscanL : Legacy.scanResults []
        [probe 2, probe 3, probe 4, probe 5, probe 6, probe 7, probe 8, probe 9, probe 10, probe 11, probe 12, probe 13, probe 14, probe 15, probe 16, probe 17, probe 18, probe 19, probe 20, probe 21, probe 22, probe 23, probe 24, probe 25, probe 26] = .inl r4 := by
      rw [hp2, hp4]
      simp [Legacy.scanResults, hp3, he, heNF, hp5, hnf, hnfne]
    have stepL : Legacy.goListLoop probe 1 2 []
        = match Legacy.scanResults [] (batchProbes probe 2 Legacy.batchSize) with
          | .inl v => some v
          | .inr a2 => Legacy.goListLoop probe 0 (2 + (Legacy.batchSize : Int)) a2 := rfl
    rw [hstartL, stepL, hbL]
    simp only [hscanL]

/-- C3 amended witness: the concrete mixed oracle realizes both halves. -/
theorem getUpgradeVersion_error_scan_amended_witness :
    getUpgradeVersion "example.com/dep".data (.ok "v1.0.0".data) cProbeMixed 1
        = .ok (some "v2.0.0".data) ∧
      Legacy.GetUpgradeVersion "example.com/dep".data cProbeMixed 1
        = .ok (some "v4.0.0".data) :=
  getUpgradeVersion_error_scan_amended cProbeMixed "v2.0.0".data "v4.0.0".data
    "503 service unavailable".data "no matching versions for query x".data
    (by decide) (by decide) (by decide) (by decide)
    (by decide) (by decide) (by decide) (by decide)

/-! ## C7 -/

/-- Splitting a valid-prefix-plus-`/v3` path recovers exactly that prefix and
suffix: `SplitPathVersion (pre ++ "/v3")`, whenever it succeeds, returns
`(pre, "/v3")` (gopkg.in-prefixed paths of this shape never succeed). -/
theorem splitPathVersion_append_v3 (pre : GoStr) (x : GoStr × GoStr)
    (h : splitPathVersion (pre ++ slashV3) = some x) : x = (pre, slashV3) := by
  have hrev : (pre ++ slashV3).reverse = '3' :: 'v' :: '/' :: pre.reverse := by
    show (pre ++ ['/', 'v', '3']).reverse = _
    simp
  by_cases hg : gopkgPre.isPrefixOf (pre ++ slashV3) = true
  · exfalso
    have hnone : splitGopkgIn (pre ++ slashV3) = none := by
      have hu : unstableSuf.reverse = 'e' :: "lbatsnu-".data := by decide
      have hsuf : unstableSuf.isSuffixOf (pre ++ slashV3) = false := by
        rw [List.isSuffixOf, hu, hrev]
        show (('e' == '3') && _) = false
        simp
      have hlen : (pre ++ slashV3).length - 0 = (pre ++ slashV3).length := by omega
      simp only [splitGopkgIn, if_pos hg, hsuf, Bool.false_eq_true, if_false, ite_false,
        hlen, List.take_length, hrev]
      simp [List.takeWhile_cons, isDigitCh, show ¬ ('0' ≤ 'v' ∧ 'v' ≤ '9') from by decide,
        show ('0' ≤ '3' ∧ '3' ≤ '9') from by decide]
    rw [splitPathVersion, if_pos hg, hnone] at h
    exact Option.noConfusion h
  · have heq : splitPathVersion (pre ++ slashV3) = some (pre, slashV3) := by
      simp only [splitPathVersion, if_neg hg, hrev]
      simp only [List.takeWhile_cons, isDigitOrDot, isDigitCh,
        show (decide ('0' ≤ '3') && decide ('3' ≤ '9') || decide ('3' = '.')) = true from
          by decide,
        show (decide ('0' ≤ 'v') && decide ('v' ≤ '9') || decide ('v' = '.')) = true ↔ False
          from by decide,
        if_true, if_false]
      have hidx : (pre ++ slashV3).length - ['3'].length - 2 = pre.length := by
        have h1 : (pre ++ slashV3).length = pre.length + 3 := by
          show (pre ++ ['/', 'v', '3']).length = _
          simp
        have h2 : (['3'] : GoStr).length = 1 := rfl
        omega
      rw [hidx, List.drop_left pre slashV3, List.take_left pre slashV3,
        if_neg ?c1, if_neg (by decide)]
      case c1 =>
        intro hcon
        rcases hcon with hx | hx | hx | hx
        · simp at hx
        · exact absurd hx (by simp)
        · exact hx (by simp)
        · exact hx (by simp)
    rw [heq] at h
    exact (Option.some.inj h).symm

/-- C7: `upgradePath` is a pure function of the split prefix and the target
major alone — upgrading `p` to `v3` and the result back down to `v2` lands
on exactly the path that upgrading `p` straight to `v2` produces
(src/main.go:324-355). -/
theorem upgradePath_roundtrip (p q r : GoStr)
    (h3 : upgradePath p vThree = .ok q) (h2 : upgradePath q vTwo = .ok r) :
    upgradePath p vTwo = .ok r := by
  have hv3ne : ¬ (vThree = ([] : GoStr)) := by decide
  have hv2ne : ¬ (vTwo = ([] : GoStr)) := by decide
  have hm3 : semverMajor vThree = vThree := by decide
  have hm2 : semverMajor vTwo = vTwo := by decide
  have h3nv : ¬ (vThree = vZero ∨ vThree = vOne) := by decide
  have h2nv : ¬ (vTwo = vZero ∨ vTwo = vOne) := by decide
  unfold upgradePath at h3 h2 ⊢
  cases hsp : splitPathVersion p with
  | none =>
    simp only [hsp] at h3
    exact absurd h3 (by simp)
  | some pr =>
    obtain ⟨pp, pm⟩ := pr
    simp only [hsp, if_neg hv3ne, hm3, if_neg h3nv] at h3
    by_cases hc3 : checkPathGo (pp ++ '/' :: vThree) = true
    · rw [if_pos hc3] at h3
      have hq : q = pp ++ '/' :: vThree := (Except.ok.inj h3).symm
      have hsl : ('/' :: vThree : GoStr) = slashV3 := by decide
      rw [hsl] at hq
      subst hq
      cases hsq : splitPathVersion (pp ++ slashV3) with
      | none =>
        simp only [hsq] at h2
        exact absurd h2 (by simp)
      | some x =>
        obtain ⟨x1, x2⟩ := x
        obtain ⟨hx1, hx2⟩ := Prod.mk.inj (splitPathVersion_append_v3 pp (x1, x2) hsq)
        rw [hx1, hx2] at hsq
        simp only [hsq, if_neg hv2ne, hm2, if_neg h2nv] at h2
        by_cases hc2 : checkPathGo (pp ++ '/' :: vTwo) = true
        · rw [if_pos hc2] at h2
          have hr : r = pp ++ '/' :: vTwo := (Except.ok.inj h2).symm
          simp only [hsp, if_neg hv2ne, hm2, if_neg h2nv]
          rw [if_pos hc2, hr]
        · rw [if_neg hc2] at h2
          exact absurd h2 (by simp)
    · rw [if_neg hc3] at h3
      exact absurd h3 (by simp)

/-- C7 witness: `example.com/mod` up to `v3` and back down to `v2` equals the
direct upgrade to `v2`. -/
theorem upgradePath_roundtrip_witness :
    (upgradePath "example.com/mod".data vThree = .ok "example.com/mod/v3".data ∧
      upgradePath "example.com/mod/v3".data vTwo = .ok "example.com/mod/v2".data) ∧
    upgradePath "example.com/mod".data vTwo = .ok "example.com/mod/v2".data :=
  ⟨⟨by decide, by decide⟩,
    upgradePath_roundtrip "example.com/mod".data "example.com/mod/v3".data
      "example.com/mod/v2".data (by decide) (by decide)⟩
